import Mathlib

/-!
Verification of the Polymarket hypergraph-generation pipeline.

This file gives a shallow embedding of the hypergraph construction code:

* `hypergraph_utils.py` — `get_day_start_timestamp`, `classify_trade`,
  `build_hypergraph_from_fills`, `write_hypergraph_files`,
  `generate_market_hypergraph`;
* `generate_hypergraph.py` — the duplicate `write_hypergraph_files` with its
  trailing `assert` statements (modelled as an explicit action trace);
* `models/DHyperNodeTPP/convert_polymarket_to_hypergraph.py` —
  `create_node_mapping`, `transaction_based_hypergraph`,
  `time_window_based_hypergraph`, `write_hypergraph_files` (directed).

File contents are modelled as the lists of records each file would hold, and
Python dict/set state as association lists / duplicate-free lists.  Timestamps
are naturals (the scripts apply `int(...)` to them and the upstream fetcher
guarantees positive integer seconds).  Python's
`datetime.fromtimestamp(t, tz=utc).replace(hour=0, ...)` computes the UTC
midnight below `t`, i.e. `t / 86400 * 86400` in natural-number arithmetic.
-/

namespace Polymarket

/-- Raw fill record as the Python code sees it: a JSON object whose fields may
be absent, in which case a subscript raises `KeyError`. -/
structure RawFill where
  maker : Option String
  taker : Option String
  makerAssetId : Option String
  takerAssetId : Option String
  timestamp : Option Nat
  deriving DecidableEq, Repr

/-- Model of Python `str.lower()`: lowercase every character.  The trader
addresses and asset ids this pipeline lowercases are ASCII hex strings, for
which per-character lowercasing is exact. -/
def pyLower (s : String) : String :=
  ⟨s.data.map Char.toLower⟩

/-- Python string comparison: lexicographic on the code-point sequence. -/
def strLe (a b : String) : Prop :=
  a.data ≤ b.data

/-- Strict version of the Python string comparison. -/
def strLt (a b : String) : Prop :=
  a.data < b.data

instance : DecidableRel strLt := fun a b =>
  inferInstanceAs (Decidable (a.data < b.data))

instance : DecidableRel strLe := fun a b =>
  inferInstanceAs (Decidable (a.data ≤ b.data))

instance : IsTotal String strLe :=
  ⟨fun a b => IsTotal.total (r := ((· ≤ ·) : List Char → List Char → Prop))
    a.data b.data⟩

instance : IsTrans String strLe :=
  ⟨fun _ _ _ h1 h2 => le_trans h1 h2⟩

instance : IsAntisymm String strLe :=
  ⟨fun a b h1 h2 => by
    cases a; cases b
    exact congrArg String.mk (le_antisymm h1 h2)⟩

/-- Errors the Python classifier can actually raise: only `KeyError` on a
missing dict field (there is no dedicated fill-validation exception class in
the repository). -/
inductive PyError where
  | keyError (fieldName : String)
  deriving DecidableEq, Repr

/-- Result of `classify_trade`. -/
structure ClassifiedTrade where
  buyer : String
  seller : String
  outcome_token : String
  day_start : Nat
  deriving DecidableEq, Repr

instance : DecidableEq (Except PyError ClassifiedTrade) := fun a b =>
  match a, b with
  | .ok x, .ok y =>
    if h : x = y then .isTrue (by rw [h])
    else .isFalse (fun he => h (Except.ok.inj he))
  | .error x, .error y =>
    if h : x = y then .isTrue (by rw [h])
    else .isFalse (fun he => h (Except.error.inj he))
  | .ok _, .error _ => .isFalse (fun he => Except.noConfusion he)
  | .error _, .ok _ => .isFalse (fun he => Except.noConfusion he)

/-- Embedding of `get_day_start_timestamp` (hypergraph_utils.py lines 13-17 and
generate_hypergraph.py lines 41-45): UTC midnight of the calendar day holding
the timestamp, as a Unix second count. -/
def get_day_start_timestamp (t : Nat) : Nat :=
  t / 86400 * 86400

/-- Embedding of `classify_trade` (hypergraph_utils.py lines 20-55, identical
in generate_hypergraph.py lines 48-80).  Field subscripts happen in source
order and raise `KeyError` when absent; `maker`/`taker` are lowercased; the
branch tests only `makerAssetId == "0"` — any other value, cash sentinel on
the taker side or not, falls into the `else` branch. -/
def classify_trade (fill : RawFill) : Except PyError ClassifiedTrade := do
  let maker ← match fill.maker with
    | some m => .ok (pyLower m)
    | none => .error (.keyError "maker")
  let taker ← match fill.taker with
    | some t => .ok (pyLower t)
    | none => .error (.keyError "taker")
  let maker_asset ← match fill.makerAssetId with
    | some a => .ok a
    | none => .error (.keyError "makerAssetId")
  let taker_asset ← match fill.takerAssetId with
    | some a => .ok a
    | none => .error (.keyError "takerAssetId")
  let timestamp ← match fill.timestamp with
    | some ts => .ok ts
    | none => .error (.keyError "timestamp")
  if maker_asset = "0" then
    .ok ⟨maker, taker, taker_asset, get_day_start_timestamp timestamp⟩
  else
    .ok ⟨taker, maker, maker_asset, get_day_start_timestamp timestamp⟩

/-- Fill with every required field present — the shape actually delivered by
the fetcher (`polymarket_processor.py`) and assumed by the aggregators. -/
structure Fill where
  maker : String
  taker : String
  makerAssetId : String
  takerAssetId : String
  timestamp : Nat
  deriving DecidableEq, Repr

/-- View of a complete fill as a raw JSON-like record. -/
def Fill.toRaw (f : Fill) : RawFill :=
  ⟨some f.maker, some f.taker, some f.makerAssetId, some f.takerAssetId,
    some f.timestamp⟩

/-- Classifier restricted to complete fills (total, as in the source where the
aggregation loops always pass complete records). -/
def classifyFill (f : Fill) : ClassifiedTrade :=
  if f.makerAssetId = "0" then
    ⟨pyLower f.maker, pyLower f.taker, f.takerAssetId,
      get_day_start_timestamp f.timestamp⟩
  else
    ⟨pyLower f.taker, pyLower f.maker, f.makerAssetId,
      get_day_start_timestamp f.timestamp⟩

/-- Python's `sorted(someStringSet)`: the distinct strings in ascending
code-point-lexicographic order. -/
def sortedUnique (l : List String) : List String :=
  List.insertionSort strLe l.dedup

/-- Python's `sorted(someIntSet)`: the distinct naturals in ascending order. -/
def sortedUniqueNat (l : List Nat) : List Nat :=
  List.insertionSort (· ≤ ·) l.dedup

/-- Python set insertion on a duplicate-free list. -/
def addAddr (l : List String) (a : String) : List String :=
  if a ∈ l then l else l ++ [a]

/-- Key of the undirected hyperedge map: `(market, outcome_token, day_start,
side)` with side the string `"BUY"` or `"SELL"`. -/
structure EdgeKey where
  market : String
  outcome : String
  day_start : Nat
  side : String
  deriving DecidableEq, Repr

/-- Undirected hyperedge record as assembled from the map entries. -/
structure Hyperedge where
  market : String
  outcome : String
  day_start : Nat
  side : String
  traders : List String
  deriving DecidableEq, Repr

/-- Insert a trader into the per-key set of the `defaultdict(set)` map,
creating the entry on first touch. -/
def addTrader (mp : List (EdgeKey × List String)) (k : EdgeKey) (t : String) :
    List (EdgeKey × List String) :=
  match mp with
  | [] => [(k, [t])]
  | (k', ts) :: rest =>
    if k' = k then (k', if t ∈ ts then ts else ts ++ [t]) :: rest
    else (k', ts) :: addTrader rest k t

/-- Loop body of `build_hypergraph_from_fills` (hypergraph_utils.py lines
76-94): classify the fill, add the buyer under the BUY key and the seller
under the SELL key of the same `(market, outcome_token, day_start)`, and
record both in `all_traders`. -/
def stepFill (market : String) (st : List (EdgeKey × List String) × List String)
    (f : Fill) : List (EdgeKey × List String) × List String :=
  let c := classifyFill f
  let mp1 := addTrader st.1 ⟨market, c.outcome_token, c.day_start, "BUY"⟩ c.buyer
  let tr1 := addAddr st.2 c.buyer
  let mp2 := addTrader mp1 ⟨market, c.outcome_token, c.day_start, "SELL"⟩ c.seller
  let tr2 := addAddr tr1 c.seller
  (mp2, tr2)

/-- Python tuple order used by `hyperedges.sort(key=...)`:
`(day_start, market, outcome, side)` lexicographically. -/
def edgeLe (a b : Hyperedge) : Prop :=
  a.day_start < b.day_start ∨
    (a.day_start = b.day_start ∧
      (strLt a.market b.market ∨
        (a.market = b.market ∧
          (strLt a.outcome b.outcome ∨
            (a.outcome = b.outcome ∧ strLe a.side b.side)))))

instance : DecidableRel edgeLe := fun a b => by
  unfold edgeLe; exact inferInstance

/-- Embedding of `build_hypergraph_from_fills` (hypergraph_utils.py lines
58-110): one pass over the fills filling the keyed map and the trader set,
then the entries as hyperedge records, sorted by
`(day_start, market, outcome, side)`.  Distinct map entries have distinct sort
keys, so the sorted order is uniquely determined. -/
def build_hypergraph_from_fills (fills : List Fill)
    (market_slug : Option String) : List Hyperedge × List String :=
  let market := market_slug.getD "market"
  let st := fills.foldl (stepFill market) ([], [])
  let hyperedges := st.1.map fun p =>
    Hyperedge.mk p.1.market p.1.outcome p.1.day_start p.1.side p.2
  (List.insertionSort edgeLe hyperedges, st.2)

/-- Contents of the four undirected output files, one list entry per written
line (congress-bills format). -/
structure UndirectedFiles where
  node_labels : List String
  nverts : List Nat
  simplices : List Nat
  times : List Nat
  deriving DecidableEq, Repr

/-- Position-based id of the Python dict
`{trader: idx + 1 for idx, trader in enumerate(traders_list)}`. -/
def traderId (traders_list : List String) (t : String) : Nat :=
  traders_list.indexOf t + 1

/-- Embedding of the undirected `write_hypergraph_files` (hypergraph_utils.py
lines 113-191, identical body in generate_hypergraph.py lines 136-199 up to
the final asserts): sorted distinct trader list as node labels, ids starting
at 1, per-edge sorted trader lists flattened into `simplices`, edge sizes into
`nverts`, and `day_start` values into `times`. -/
def write_hypergraph_files (hyperedges : List Hyperedge)
    (all_traders : List String) : UndirectedFiles :=
  let traders_list := sortedUnique all_traders
  let nverts_list := hyperedges.map fun e => (sortedUnique e.traders).length
  let times_list := hyperedges.map fun e => e.day_start
  let simplices_list := hyperedges.flatMap fun e =>
    (sortedUnique e.traders).map (traderId traders_list)
  ⟨traders_list, nverts_list, simplices_list, times_list⟩

/-- Statistics dict returned by the utils serializer. -/
structure HStats where
  nodes : Nat
  hyperedges : Nat
  total_vertex_occurrences : Nat
  deriving DecidableEq, Repr

/-- Embedding of `generate_market_hypergraph` (hypergraph_utils.py lines
194-232) after the fills are loaded: an empty fill list raises
`ValueError("No fills found ...")` before anything is built or written;
otherwise the hypergraph is built and serialized. -/
def generate_market_hypergraph (fills : List Fill) (market_slug : String) :
    Except String HStats :=
  if fills.isEmpty then
    .error "No fills found"
  else
    let r := build_hypergraph_from_fills fills (some market_slug)
    let files := write_hypergraph_files r.1 r.2
    .ok ⟨files.node_labels.length, r.1.length, files.nverts.sum⟩

/-- Observable serialization step: either a file write or an executed
`assert` with the Boolean it checks. -/
inductive WriteAction where
  | writeFile (fileName : String)
  | assertCheck (ok : Bool) (message : String)
  deriving DecidableEq, Repr

/-- True on the `assert` steps of a trace. -/
def WriteAction.isAssert : WriteAction → Bool
  | .assertCheck _ _ => true
  | .writeFile _ => false

/-- True on the file-write steps of a trace. -/
def WriteAction.isWrite : WriteAction → Bool
  | .writeFile _ => true
  | .assertCheck _ _ => false

/-- Action trace of `write_hypergraph_files` in generate_hypergraph.py (lines
136-199): the four files are written first, then the two integrity conditions
are asserted (lines 198-199). -/
def write_files_trace_gen (hyperedges : List Hyperedge)
    (all_traders : List String) : List WriteAction :=
  let files := write_hypergraph_files hyperedges all_traders
  [.writeFile "node-labels.txt", .writeFile "nverts.txt",
   .writeFile "simplices.txt", .writeFile "times.txt",
   .assertCheck (files.nverts.length == files.times.length)
     "nverts and times must have same length",
   .assertCheck (files.nverts.sum == files.simplices.length)
     "sum of nverts must equal simplices length"]

/-- Action trace of `write_hypergraph_files` in hypergraph_utils.py (lines
113-191): the four file writes and no assertion of any kind. -/
def write_files_trace_utils (_hyperedges : List Hyperedge)
    (_all_traders : List String) : List WriteAction :=
  [.writeFile "node-labels.txt", .writeFile "nverts.txt",
   .writeFile "simplices.txt", .writeFile "times.txt"]

/-- Property a fail-fast serialization trace would have: some integrity assert
is executed, and no file write happens before the first assert. -/
def failFastOk (tr : List WriteAction) : Bool :=
  tr.any WriteAction.isAssert &&
    (tr.takeWhile (fun a => !a.isAssert)).all (fun a => !a.isWrite)

/-- Wallet set collection of `create_node_mapping`
(convert_polymarket_to_hypergraph.py lines 25-31): raw `maker` and `taker`
strings, with no case normalization. -/
def walletsOf (fills : List Fill) : List String :=
  fills.foldl (fun acc f => addAddr (addAddr acc f.maker) f.taker) []

/-- Embedding of `create_node_mapping` (convert_polymarket_to_hypergraph.py
lines 25-37): ids are positions in the sorted distinct wallet list, starting
at 0.  Modelled as the dict's association list in insertion order. -/
def create_node_mapping (fills : List Fill) : List (String × Nat) :=
  (sortedUnique (walletsOf fills)).enum.map fun p => (p.2, p.1)

/-- Dict lookup in a node mapping (defaulting, since the converters only look
up wallets that are in the mapping). -/
def lookupId (mapping : List (String × Nat)) (w : String) : Nat :=
  (mapping.lookup w).getD 0

/-- Undirected node-id dict `{trader: idx + 1}` built by
`write_hypergraph_files` (hypergraph_utils.py lines 133-135), as an
association list: ids start at 1. -/
def trader_to_id (all_traders : List String) : List (String × Nat) :=
  (sortedUnique all_traders).enum.map fun p => (p.2, p.1 + 1)

/-- Directed hyperedge: left (source) ids, right (target) ids, timestamp. -/
structure DEdge where
  left : List Nat
  right : List Nat
  time : Nat
  deriving DecidableEq, Repr

/-- Embedding of `transaction_based_hypergraph`
(convert_polymarket_to_hypergraph.py lines 39-59): one edge per fill,
`left = [maker id]`, `right = [taker id]`, raw timestamp. -/
def transaction_based_hypergraph (fills : List Fill) (m : String → Nat) :
    List DEdge :=
  fills.map fun f => ⟨[m f.maker], [m f.taker], f.timestamp⟩

/-- Window key of a fill: `(timestamp // window_seconds) * window_seconds`
(convert_polymarket_to_hypergraph.py line 77). -/
def fillWindow (w : Nat) (f : Fill) : Nat :=
  f.timestamp / w * w

/-- Seller-id set of one window, sorted: id of the taker when
`makerAssetId == "0"` (maker buys), else id of the maker. -/
def windowSellers (fills : List Fill) (m : String → Nat) (w k : Nat) :
    List Nat :=
  sortedUniqueNat ((fills.filter fun f => fillWindow w f = k).map fun f =>
    if f.makerAssetId = "0" then m f.taker else m f.maker)

/-- Buyer-id set of one window, sorted: id of the maker when
`makerAssetId == "0"`, else id of the taker. -/
def windowBuyers (fills : List Fill) (m : String → Nat) (w k : Nat) :
    List Nat :=
  sortedUniqueNat ((fills.filter fun f => fillWindow w f = k).map fun f =>
    if f.makerAssetId = "0" then m f.maker else m f.taker)

/-- Sorted distinct window keys, i.e. `sorted(windows.keys())`. -/
def windowKeys (fills : List Fill) (w : Nat) : List Nat :=
  sortedUniqueNat (fills.map (fillWindow w))

/-- Embedding of `time_window_based_hypergraph`
(convert_polymarket_to_hypergraph.py lines 61-105): per ascending window key,
emit `sellers → buyers` only when both sorted sets are non-empty. -/
def time_window_based_hypergraph (fills : List Fill) (m : String → Nat)
    (w : Nat) : List DEdge :=
  (windowKeys fills w).filterMap fun k =>
    let sellers := windowSellers fills m w k
    let buyers := windowBuyers fills m w k
    if sellers ≠ [] ∧ buyers ≠ [] then some ⟨sellers, buyers, k⟩ else none

/-- Contents of the three directed output files
(convert_polymarket_to_hypergraph.py lines 107-127).  Line `i` of
`p_k_list_train.txt` is rendered as `"<idx>:<comma-joined left ids>"`,
`p_a_list_train.txt` likewise for the right ids, and `times.txt` as
`"<idx>\t<float(time)>"`; each record keeps the leading index and the payload
explicit. -/
structure DirectedFiles where
  p_k_list : List (Nat × List Nat)
  p_a_list : List (Nat × List Nat)
  times : List (Nat × Nat)
  deriving DecidableEq, Repr

/-- Embedding of the directed `write_hypergraph_files`: `enumerate` over the
edges writes one indexed line to each of the three files per edge. -/
def write_directed_files (hyperedges : List DEdge) : DirectedFiles :=
  ⟨hyperedges.enum.map fun p => (p.1, p.2.left),
   hyperedges.enum.map fun p => (p.1, p.2.right),
   hyperedges.enum.map fun p => (p.1, p.2.time)⟩

/-- Keys of the undirected hyperedge map. -/
def keysOf (mp : List (EdgeKey × List String)) : List EdgeKey :=
  mp.map Prod.fst

/-- Pairing property of the undirected map: a BUY entry exists for a
`(market, outcome, day)` triple exactly when a SELL entry does. -/
def Paired (mp : List (EdgeKey × List String)) : Prop :=
  ∀ m o d, (⟨m, o, d, "BUY"⟩ : EdgeKey) ∈ keysOf mp ↔
    (⟨m, o, d, "SELL"⟩ : EdgeKey) ∈ keysOf mp

/-- Three-fill input of the time-window scenario (window 3600): two fills 10
seconds apart with opposite roles — the first has the cash leg on the maker
side, the second on the taker side — and a third fill 4000 seconds after the
second. -/
def scenarioFills : List Fill :=
  [⟨"0xA", "0xB", "0", "tok", 1000⟩,
   ⟨"0xA", "0xB", "tok", "0", 1010⟩,
   ⟨"0xA", "0xB", "0", "tok", 5010⟩]

/-!  Theorems. -/

/-- On complete fills the two classifier views agree, so the total version is a
faithful restriction of the raw one. -/
theorem classify_trade_toRaw (f : Fill) :
    classify_trade f.toRaw = .ok (classifyFill f) := by
  simp only [classify_trade, Fill.toRaw, classifyFill, bind, Except.bind]
  by_cases h : f.makerAssetId = "0" <;> simp [h]

/-- Length of a flatMap is the sum of the mapped lengths. -/
theorem length_flatMap_eq {α β : Type} (l : List α) (f : α → List β) :
    (l.flatMap f).length = (l.map fun a => (f a).length).sum := by
  induction l with
  | nil => rfl
  | cons a as ih => simp [ih]

/-- The undirected serializer emits one `nverts` entry and one `times` entry
per hyperedge. -/
theorem write_files_nverts_length_eq (hyperedges : List Hyperedge)
    (all_traders : List String) :
    (write_hypergraph_files hyperedges all_traders).nverts.length =
      (write_hypergraph_files hyperedges all_traders).times.length := by
  simp [write_hypergraph_files]

/-- The undirected serializer emits exactly `sum nverts` simplex entries. -/
theorem write_files_nverts_sum_eq (hyperedges : List Hyperedge)
    (all_traders : List String) :
    (write_hypergraph_files hyperedges all_traders).nverts.sum =
      (write_hypergraph_files hyperedges all_traders).simplices.length := by
  simp only [write_hypergraph_files, length_flatMap_eq, List.length_map]

/-- Mapping an indexed pair constructor over `enum` keeps the leading index
sequence `0..n-1`. -/
theorem enum_pair_map_fst {α β : Type} (l : List α) (g : Nat × α → β) :
    ((l.enum.map fun p => (p.1, g p)).map Prod.fst) = List.range l.length := by
  rw [List.map_map,
    show (Prod.fst ∘ fun p : Nat × α => (p.1, g p)) = Prod.fst from rfl,
    List.enum_map_fst]

/-- C1: every run of the undirected serializer produces parallel files with
`len(nverts) = len(times)` and `sum(nverts) = len(simplices)`; every run of
the directed writer (used by both converter modes) produces three files with
equal line counts whose leading edge indices are exactly `0..n-1`, line `i`
carrying index `i` in each file. -/
theorem C1_serialization_integrity :
    (∀ (hyperedges : List Hyperedge) (all_traders : List String),
      (write_hypergraph_files hyperedges all_traders).nverts.length =
        (write_hypergraph_files hyperedges all_traders).times.length ∧
      (write_hypergraph_files hyperedges all_traders).nverts.sum =
        (write_hypergraph_files hyperedges all_traders).simplices.length) ∧
    (∀ hyperedges : List DEdge,
      (write_directed_files hyperedges).p_k_list.length = hyperedges.length ∧
      (write_directed_files hyperedges).p_a_list.length = hyperedges.length ∧
      (write_directed_files hyperedges).times.length = hyperedges.length ∧
      (write_directed_files hyperedges).p_k_list.map Prod.fst =
        List.range hyperedges.length ∧
      (write_directed_files hyperedges).p_a_list.map Prod.fst =
        List.range hyperedges.length ∧
      (write_directed_files hyperedges).times.map Prod.fst =
        List.range hyperedges.length) := by
  constructor
  · intro hyperedges all_traders
    exact ⟨write_files_nverts_length_eq hyperedges all_traders,
      write_files_nverts_sum_eq hyperedges all_traders⟩
  · intro hyperedges
    refine ⟨by simp [write_directed_files], by simp [write_directed_files],
      by simp [write_directed_files], ?_, ?_, ?_⟩
    · exact enum_pair_map_fst hyperedges fun p => p.2.left
    · exact enum_pair_map_fst hyperedges fun p => p.2.right
    · exact enum_pair_map_fst hyperedges fun p => p.2.time

/-- C7: day bucketing is a pure timezone-fixed floor to UTC midnight: equal
UTC calendar days give equal `day_start`; a bucket start and the last second
of its day map to the same bucket while the next second starts the next
bucket; the result never exceeds the input and is always a multiple of a day
(floored, never rounded). -/
theorem C7_day_bucketing :
    (∀ t1 t2 : Nat, t1 / 86400 = t2 / 86400 →
      get_day_start_timestamp t1 = get_day_start_timestamp t2) ∧
    (∀ d : Nat, d % 86400 = 0 →
      get_day_start_timestamp d = d ∧
      get_day_start_timestamp (d + 86399) = d ∧
      get_day_start_timestamp (d + 86400) = d + 86400) ∧
    (∀ t : Nat, get_day_start_timestamp t ≤ t ∧
      t < get_day_start_timestamp t + 86400 ∧
      get_day_start_timestamp t % 86400 = 0) := by
  refine ⟨fun t1 t2 h => ?_, fun d h => ⟨?_, ?_, ?_⟩, fun t => ⟨?_, ?_, ?_⟩⟩ <;>
    simp only [get_day_start_timestamp] <;> omega

/-- C7 witness: the bucketing facts at the concrete day start 86400. -/
theorem C7_day_bucketing_witness :
    get_day_start_timestamp 86400 = 86400 ∧
    get_day_start_timestamp (86400 + 86399) = 86400 ∧
    get_day_start_timestamp (86400 + 86400) = 86400 + 86400 :=
  C7_day_bucketing.2.1 86400 (by decide)

/-- C2 counterexample: on a concrete one-edge dataset neither serializer
fails fast — the generate_hypergraph.py serializer runs its asserts only
after all four files are written, and the hypergraph_utils.py serializer has
no assert at all, so on both paths a file write precedes any integrity
check. -/
theorem C2_fail_fast_counterexample :
    failFastOk (write_files_trace_gen
      [⟨"m", "tok", 0, "BUY", ["0xa"]⟩] ["0xa"]) = false ∧
    failFastOk (write_files_trace_utils
      [⟨"m", "tok", 0, "BUY", ["0xa"]⟩] ["0xa"]) = false := by
  decide

/-- C2 amended: the integrity conditions are asserted only on the
generate_hypergraph.py path and only after the four file writes (as a plain
`assert`, not a dedicated `IntegrityError`), and there they always pass; the
hypergraph_utils.py serializer writes the same four files with no assertion
at all. -/
theorem C2_fail_fast_amended (hyperedges : List Hyperedge)
    (all_traders : List String) :
    write_files_trace_gen hyperedges all_traders =
      [.writeFile "node-labels.txt", .writeFile "nverts.txt",
       .writeFile "simplices.txt", .writeFile "times.txt",
       .assertCheck true "nverts and times must have same length",
       .assertCheck true "sum of nverts must equal simplices length"] ∧
    write_files_trace_utils hyperedges all_traders =
      [.writeFile "node-labels.txt", .writeFile "nverts.txt",
       .writeFile "simplices.txt", .writeFile "times.txt"] := by
  constructor
  · simp only [write_files_trace_gen]
    rw [beq_iff_eq.mpr (write_files_nverts_length_eq hyperedges all_traders),
      beq_iff_eq.mpr (write_files_nverts_sum_eq hyperedges all_traders)]
  · rfl

/-- C3 counterexample: a complete fill in which neither `makerAssetId` nor
`takerAssetId` is the cash sentinel `"0"` is classified without any error —
the `else` branch silently makes the taker the buyer — instead of raising a
`MalformedFillError` (no such exception class exists in the repository). -/
theorem C3_malformed_fill_counterexample :
    classify_trade ⟨some "0xA", some "0xB", some "5", some "7", some 100⟩ =
      .ok ⟨"0xb", "0xa", "5", 0⟩ := by
  decide

/-- C3 amended: classification fails only on an absent required field, and
then with Python's `KeyError`, not a `MalformedFillError`; a complete fill
whose `makerAssetId` is not `"0"` — in particular an ambiguous fill where
`takerAssetId` is not `"0"` either — is silently classified with the taker as
buyer, the maker as seller and `makerAssetId` as the outcome token. -/
theorem C3_malformed_fill_amended :
    (∀ f : Fill, f.makerAssetId ≠ "0" →
      classify_trade f.toRaw =
        .ok ⟨pyLower f.taker, pyLower f.maker, f.makerAssetId,
          get_day_start_timestamp f.timestamp⟩) ∧
    (∀ fill : RawFill,
      (∃ e, classify_trade fill = .error e) ↔
        (fill.maker = none ∨ fill.taker = none ∨ fill.makerAssetId = none ∨
          fill.takerAssetId = none ∨ fill.timestamp = none)) ∧
    (∀ fill : RawFill, ∀ e, classify_trade fill = .error e →
      ∃ fieldName, e = .keyError fieldName) := by
  refine ⟨fun f h => ?_, fun fill => ?_, fun fill e h => ?_⟩
  · rw [classify_trade_toRaw]
    simp [classifyFill, h]
  · obtain ⟨maker, taker, ma, ta, ts⟩ := fill
    cases maker <;> cases taker <;> cases ma <;> cases ta <;> cases ts <;>
      simp [classify_trade, bind, Except.bind]
    split <;> simp
  · cases e with
    | keyError fieldName => exact ⟨fieldName, rfl⟩

/-- C3 witness: the amended theorem applied to a concrete ambiguous fill. -/
theorem C3_malformed_fill_witness :
    classify_trade (Fill.toRaw ⟨"0xA", "0xB", "5", "7", 100⟩) =
      .ok ⟨pyLower "0xB", pyLower "0xA", "5", get_day_start_timestamp 100⟩ :=
  C3_malformed_fill_amended.1 ⟨"0xA", "0xB", "5", "7", 100⟩ (by decide)

/-- C4 counterexample: a self-trade whose maker and taker differ only in
letter case classifies with `buyer = seller`, refuting
`classify(f).buyer != classify(f).seller` for all fills. -/
theorem C4_side_consistency_counterexample :
    (classifyFill ⟨"0xA", "0xa", "0", "7", 100⟩).buyer =
      (classifyFill ⟨"0xA", "0xa", "0", "7", 100⟩).seller := by
  decide

/-- C4 amended: for every fill whose lowercased maker and taker differ,
classification is side-consistent — `buyer ≠ seller`, and one of buyer/seller
is the lowercased maker while the other is the lowercased taker. -/
theorem C4_side_consistency_amended (f : Fill)
    (h : pyLower f.maker ≠ pyLower f.taker) :
    (classifyFill f).buyer ≠ (classifyFill f).seller ∧
    (((classifyFill f).buyer = pyLower f.maker ∧
        (classifyFill f).seller = pyLower f.taker) ∨
      ((classifyFill f).buyer = pyLower f.taker ∧
        (classifyFill f).seller = pyLower f.maker)) := by
  unfold classifyFill
  by_cases hm : f.makerAssetId = "0" <;> simp [hm]
  · exact h
  · exact fun he => h he.symm

/-- C4 witness: the amended side-consistency at a concrete fill. -/
theorem C4_side_consistency_witness :
    (classifyFill ⟨"0xA", "0xB", "0", "7", 100⟩).buyer ≠
      (classifyFill ⟨"0xA", "0xB", "0", "7", 100⟩).seller ∧
    (((classifyFill ⟨"0xA", "0xB", "0", "7", 100⟩).buyer = pyLower "0xA" ∧
        (classifyFill ⟨"0xA", "0xB", "0", "7", 100⟩).seller = pyLower "0xB") ∨
      ((classifyFill ⟨"0xA", "0xB", "0", "7", 100⟩).buyer = pyLower "0xB" ∧
        (classifyFill ⟨"0xA", "0xB", "0", "7", 100⟩).seller = pyLower "0xA")) :=
  C4_side_consistency_amended ⟨"0xA", "0xB", "0", "7", 100⟩ (by decide)

/-- C9 counterexample: the aggregator entry point
`build_hypergraph_from_fills` accepts the empty fill sequence and silently
returns an empty hypergraph instead of raising an `EmptyDatasetError` (no
such exception class exists in the repository). -/
theorem C9_empty_dataset_counterexample :
    build_hypergraph_from_fills [] none = ([], []) := by
  decide

/-- C9 amended: only `generate_market_hypergraph` rejects an empty fill list,
with a `ValueError` (not an `EmptyDatasetError`) raised before anything is
serialized; on non-empty input it succeeds; `build_hypergraph_from_fills`
silently maps the empty fill sequence to the empty hypergraph. -/
theorem C9_empty_dataset_amended :
    (∀ slug : String,
      generate_market_hypergraph [] slug = .error "No fills found") ∧
    (∀ (fills : List Fill) (slug : String), fills ≠ [] →
      ∃ s, generate_market_hypergraph fills slug = .ok s) ∧
    build_hypergraph_from_fills [] none = ([], []) := by
  refine ⟨fun slug => rfl, fun fills slug h => ?_, by decide⟩
  rw [generate_market_hypergraph, if_neg (by simpa using h)]
  exact ⟨_, rfl⟩

/-- C9 witness: the amended behavior at a concrete slug and one-fill input. -/
theorem C9_empty_dataset_witness :
    ∃ s, generate_market_hypergraph
      [⟨"0xA", "0xB", "0", "tok", 100⟩] "mkt" = .ok s :=
  C9_empty_dataset_amended.2.1 [⟨"0xA", "0xB", "0", "tok", 100⟩] "mkt"
    (by decide)

/-- Lists with the same element set have permutation-equivalent
deduplications. -/
theorem dedup_perm_of_toFinset_eq {l1 l2 : List String}
    (h : l1.toFinset = l2.toFinset) : List.Perm l1.dedup l2.dedup := by
  have hv := congrArg Finset.val h
  rw [List.toFinset, List.toFinset, Multiset.toFinset_val,
    Multiset.toFinset_val, Multiset.coe_dedup, Multiset.coe_dedup,
    Multiset.coe_eq_coe] at hv
  exact hv

/-- The sorted distinct list is a pure function of the element set. -/
theorem sortedUnique_eq_of_toFinset_eq {l1 l2 : List String}
    (h : l1.toFinset = l2.toFinset) : sortedUnique l1 = sortedUnique l2 :=
  List.eq_of_perm_of_sorted
    ((List.perm_insertionSort strLe l1.dedup).trans
      ((dedup_perm_of_toFinset_eq h).trans
        (List.perm_insertionSort strLe l2.dedup).symm))
    (List.sorted_insertionSort strLe l1.dedup)
    (List.sorted_insertionSort strLe l2.dedup)

/-- Mapping an index-keyed pair constructor over `enum` turns the second
components into the image of `0..n-1`. -/
theorem enum_pair_map_snd {α : Type} (l : List α) (g : Nat → Nat) :
    ((l.enum.map fun p => (p.2, g p.1)).map Prod.snd) =
      (List.range l.length).map g := by
  rw [List.map_map,
    show (Prod.snd ∘ fun p : Nat × α => (p.2, g p.1)) = (g ∘ Prod.fst) from rfl,
    ← List.map_map, List.enum_map_fst]

/-- C5: both node-id mappings are pure functions of the distinct address set
— any two inputs inducing the same set (in any order, with any duplication)
yield identical mappings, built by sorting the addresses and numbering them
sequentially — and the id sequence starts at 1 for the undirected format and
at 0 for the directed format. -/
theorem C5_node_mapping_deterministic :
    (∀ l1 l2 : List String, l1.toFinset = l2.toFinset →
      trader_to_id l1 = trader_to_id l2) ∧
    (∀ fills1 fills2 : List Fill,
      (walletsOf fills1).toFinset = (walletsOf fills2).toFinset →
      create_node_mapping fills1 = create_node_mapping fills2) ∧
    (∀ l : List String, (trader_to_id l).map Prod.snd =
      (List.range (sortedUnique l).length).map (· + 1)) ∧
    (∀ fills : List Fill, (create_node_mapping fills).map Prod.snd =
      List.range (sortedUnique (walletsOf fills)).length) := by
  refine ⟨fun l1 l2 h => ?_, fun fills1 fills2 h => ?_, fun l => ?_,
    fun fills => ?_⟩
  · unfold trader_to_id
    rw [sortedUnique_eq_of_toFinset_eq h]
  · unfold create_node_mapping
    rw [sortedUnique_eq_of_toFinset_eq h]
  · exact enum_pair_map_snd (sortedUnique l) (· + 1)
  · have := enum_pair_map_snd (sortedUnique (walletsOf fills)) id
    simpa [create_node_mapping] using this

/-- C5 witness: reordered, duplicated inputs with the same address set give
the same mappings; both start-index facts evaluated on them. -/
theorem C5_node_mapping_deterministic_witness :
    trader_to_id ["b", "a"] = trader_to_id ["a", "b", "a"] ∧
    create_node_mapping [⟨"B", "A", "0", "t", 1⟩] =
      create_node_mapping [⟨"A", "B", "0", "t", 2⟩] :=
  ⟨C5_node_mapping_deterministic.1 ["b", "a"] ["a", "b", "a"] (by decide),
   C5_node_mapping_deterministic.2.1 [⟨"B", "A", "0", "t", 1⟩]
     [⟨"A", "B", "0", "t", 2⟩] (by decide)⟩

/-- C6 counterexample: the directed converter's `create_node_mapping` does
not lowercase addresses — two fills whose makers differ only in case produce
three distinct nodes, with `"0xA"` and `"0xa"` mapped to different ids, so
the two pipelines do not agree on treating case-variant addresses as one
trader. -/
theorem C6_lowercase_counterexample :
    create_node_mapping
      [⟨"0xA", "0xB", "0", "t", 5⟩, ⟨"0xa", "0xB", "0", "t", 6⟩] =
      [("0xA", 0), ("0xB", 1), ("0xa", 2)] ∧
    lookupId (create_node_mapping
      [⟨"0xA", "0xB", "0", "t", 5⟩, ⟨"0xa", "0xB", "0", "t", 6⟩]) "0xA" ≠
    lookupId (create_node_mapping
      [⟨"0xA", "0xB", "0", "t", 5⟩, ⟨"0xa", "0xB", "0", "t", 6⟩]) "0xa" := by
  decide

/-- C6 amended: only the undirected pipeline normalizes addresses — the
classifier lowercases maker and taker, so fills equal up to address case
classify identically; the directed converter's `create_node_mapping` keys
nodes on the raw address strings, keeping case-variant addresses distinct. -/
theorem C6_lowercase_amended :
    (∀ f g : Fill, pyLower f.maker = pyLower g.maker →
      pyLower f.taker = pyLower g.taker → f.makerAssetId = g.makerAssetId →
      f.takerAssetId = g.takerAssetId → f.timestamp = g.timestamp →
      classifyFill f = classifyFill g) ∧
    (∀ f : Fill,
      ((classifyFill f).buyer = pyLower f.maker ∧
        (classifyFill f).seller = pyLower f.taker) ∨
      ((classifyFill f).buyer = pyLower f.taker ∧
        (classifyFill f).seller = pyLower f.maker)) ∧
    create_node_mapping [⟨"0xC", "0xD", "0", "t", 1⟩, ⟨"0xc", "0xD", "0", "t", 2⟩] =
      [("0xC", 0), ("0xD", 1), ("0xc", 2)] := by
  refine ⟨fun f g h1 h2 h3 h4 h5 => ?_, fun f => ?_, by decide⟩
  · unfold classifyFill
    rw [h1, h2, h3, h4, h5]
  · unfold classifyFill
    by_cases hm : f.makerAssetId = "0" <;> simp [hm]

/-- C6 witness: the amended case-insensitivity of the classifier at two
concrete fills differing only in address case. -/
theorem C6_lowercase_witness :
    classifyFill ⟨"0xAb", "0xCd", "0", "t", 9⟩ =
      classifyFill ⟨"0xaB", "0xcD", "0", "t", 9⟩ :=
  C6_lowercase_amended.1 ⟨"0xAb", "0xCd", "0", "t", 9⟩
    ⟨"0xaB", "0xcD", "0", "t", 9⟩ (by decide) (by decide) rfl rfl rfl

/-- Membership in a sorted distinct natural list is membership in the
original list. -/
theorem mem_sortedUniqueNat {a : Nat} {l : List Nat} :
    a ∈ sortedUniqueNat l ↔ a ∈ l := by
  unfold sortedUniqueNat
  rw [(List.perm_insertionSort _ _).mem_iff, List.mem_dedup]

/-- Membership in a sorted distinct string list is membership in the
original list. -/
theorem mem_sortedUnique {a : String} {l : List String} :
    a ∈ sortedUnique l ↔ a ∈ l := by
  unfold sortedUnique
  rw [(List.perm_insertionSort _ _).mem_iff, List.mem_dedup]

/-- C8: in time-window mode every fill is assigned to the bucket
`floor(timestamp / w) * w` — its seller id lands in that window's seller set
and its buyer id in the buyer set; every emitted edge has non-empty left and
right exactly equal to the seller and buyer sets of a window that some fill
occupies; and on the concrete scenario (window 3600) two opposite-role fills
10 seconds apart merge into one edge while a fill 4000 seconds later starts
a second edge. -/
theorem C8_time_window_mode :
    (∀ (fills : List Fill) (m : String → Nat) (w : Nat),
      (∀ f ∈ fills,
        (if f.makerAssetId = "0" then m f.taker else m f.maker) ∈
          windowSellers fills m w (fillWindow w f) ∧
        (if f.makerAssetId = "0" then m f.maker else m f.taker) ∈
          windowBuyers fills m w (fillWindow w f)) ∧
      (∀ e ∈ time_window_based_hypergraph fills m w,
        e.left ≠ [] ∧ e.right ≠ [] ∧
        e.left = windowSellers fills m w e.time ∧
        e.right = windowBuyers fills m w e.time ∧
        ∃ f ∈ fills, fillWindow w f = e.time)) ∧
    time_window_based_hypergraph scenarioFills
      (lookupId (create_node_mapping scenarioFills)) 3600 =
      [⟨[0, 1], [0, 1], 0⟩, ⟨[1], [0], 3600⟩] := by
  refine ⟨fun fills m w => ⟨fun f hf => ⟨?_, ?_⟩, fun e he => ?_⟩, by decide⟩
  · rw [windowSellers, mem_sortedUniqueNat]
    exact List.mem_map_of_mem _ (List.mem_filter_of_mem hf (by simp))
  · rw [windowBuyers, mem_sortedUniqueNat]
    exact List.mem_map_of_mem _ (List.mem_filter_of_mem hf (by simp))
  · rw [time_window_based_hypergraph, List.mem_filterMap] at he
    obtain ⟨k, hk, hsome⟩ := he
    simp only at hsome
    split at hsome
    · rename_i hcond
      cases hsome
      refine ⟨hcond.1, hcond.2, rfl, rfl, ?_⟩
      rw [windowKeys, mem_sortedUniqueNat, List.mem_map] at hk
      obtain ⟨f, hf, hfw⟩ := hk
      exact ⟨f, hf, hfw⟩
    · cases hsome

/-- C8 witness: the general window facts instantiated on the scenario's first
fill and first emitted edge. -/
theorem C8_time_window_mode_witness :
    ((⟨[0, 1], [0, 1], 0⟩ : DEdge).left ≠ [] ∧
      (⟨[0, 1], [0, 1], 0⟩ : DEdge).right ≠ [] ∧
      (⟨[0, 1], [0, 1], 0⟩ : DEdge).left =
        windowSellers scenarioFills
          (lookupId (create_node_mapping scenarioFills)) 3600
          (⟨[0, 1], [0, 1], 0⟩ : DEdge).time ∧
      (⟨[0, 1], [0, 1], 0⟩ : DEdge).right =
        windowBuyers scenarioFills
          (lookupId (create_node_mapping scenarioFills)) 3600
          (⟨[0, 1], [0, 1], 0⟩ : DEdge).time ∧
      ∃ f ∈ scenarioFills,
        fillWindow 3600 f = (⟨[0, 1], [0, 1], 0⟩ : DEdge).time) :=
  (C8_time_window_mode.1 scenarioFills
    (lookupId (create_node_mapping scenarioFills)) 3600).2
    ⟨[0, 1], [0, 1], 0⟩ (by decide)

/-- Key membership after inserting a trader: the old keys plus the touched
key. -/
theorem mem_keysOf_addTrader (mp : List (EdgeKey × List String)) (k : EdgeKey)
    (t : String) (k' : EdgeKey) :
    k' ∈ keysOf (addTrader mp k t) ↔ k' ∈ keysOf mp ∨ k' = k := by
  induction mp with
  | nil => simp [addTrader, keysOf]
  | cons hd tl ih =>
    obtain ⟨k0, ts⟩ := hd
    by_cases h : k0 = k <;>
      simp only [addTrader, if_pos, if_neg, h, keysOf, List.map_cons,
        List.mem_cons, if_true, if_false, ite_true, ite_false] at ih ⊢ <;>
      tauto

/-- Inserting a trader grows the map by one entry exactly when its key is
new. -/
theorem length_addTrader (mp : List (EdgeKey × List String)) (k : EdgeKey)
    (t : String) :
    (addTrader mp k t).length =
      if k ∈ keysOf mp then mp.length else mp.length + 1 := by
  induction mp with
  | nil => simp [addTrader, keysOf]
  | cons hd tl ih =>
    obtain ⟨k0, ts⟩ := hd
    by_cases h : k0 = k
    · subst h
      simp [addTrader, keysOf]
    · simp only [addTrader, if_neg h, keysOf, List.map_cons, List.mem_cons,
        List.length_cons]
      rw [show (List.map Prod.fst tl) = keysOf tl from rfl]
      have hne : ¬ k = k0 := fun hc => h hc.symm
      by_cases hk : k ∈ keysOf tl
      · rw [ih, if_pos hk, if_pos (Or.inr hk)]
      · rw [ih, if_neg hk,
          if_neg (fun hc => hc.elim (fun h1 => hne h1) (fun h2 => hk h2))]

/-- One aggregation step preserves BUY/SELL pairing and the parity of the
edge count: the fill touches the BUY and the SELL key of one and the same
`(market, outcome, day)` triple. -/
theorem stepFill_invariant (market : String) (f : Fill)
    (st : List (EdgeKey × List String) × List String)
    (h1 : Paired st.1) (h2 : Even st.1.length) :
    Paired (stepFill market st f).1 ∧ Even (stepFill market st f).1.length := by
  obtain ⟨mp, tr⟩ := st
  set c := classifyFill f with hc
  have hBS : ("BUY" : String) ≠ "SELL" := by decide
  constructor
  · intro m o d
    simp only [stepFill]
    rw [mem_keysOf_addTrader, mem_keysOf_addTrader,
      mem_keysOf_addTrader, mem_keysOf_addTrader]
    have hb : ((⟨m, o, d, "BUY"⟩ : EdgeKey) =
        ⟨market, c.outcome_token, c.day_start, "SELL"⟩) ↔ False := by
      simp [EdgeKey.mk.injEq]
    have hs : ((⟨m, o, d, "SELL"⟩ : EdgeKey) =
        ⟨market, c.outcome_token, c.day_start, "BUY"⟩) ↔ False := by
      simp [EdgeKey.mk.injEq]
    have hbb : ((⟨m, o, d, "BUY"⟩ : EdgeKey) =
        ⟨market, c.outcome_token, c.day_start, "BUY"⟩) ↔
        (m = market ∧ o = c.outcome_token ∧ d = c.day_start) := by
      simp [EdgeKey.mk.injEq]
    have hss : ((⟨m, o, d, "SELL"⟩ : EdgeKey) =
        ⟨market, c.outcome_token, c.day_start, "SELL"⟩) ↔
        (m = market ∧ o = c.outcome_token ∧ d = c.day_start) := by
      simp [EdgeKey.mk.injEq]
    rw [hb, hs, hbb, hss]
    have := h1 m o d
    tauto
  · simp only [stepFill]
    rw [length_addTrader, length_addTrader]
    have hpair := h1 market c.outcome_token c.day_start
    by_cases hbk : (⟨market, c.outcome_token, c.day_start, "BUY"⟩ : EdgeKey) ∈
        keysOf mp
    · have hsk : (⟨market, c.outcome_token, c.day_start, "SELL"⟩ : EdgeKey) ∈
          keysOf mp := hpair.mp hbk
      rw [if_pos ((mem_keysOf_addTrader _ _ _ _).mpr (Or.inl hsk)), if_pos hbk]
      exact h2
    · have hsk : (⟨market, c.outcome_token, c.day_start, "SELL"⟩ : EdgeKey) ∉
          keysOf mp := fun hc => hbk (hpair.mpr hc)
      have hout : (⟨market, c.outcome_token, c.day_start, "SELL"⟩ : EdgeKey) ∉
          keysOf (addTrader mp
            ⟨market, c.outcome_token, c.day_start, "BUY"⟩ c.buyer) := by
        rw [mem_keysOf_addTrader]
        rintro (hc | hc)
        · exact hsk hc
        · exact absurd hc (by simp [EdgeKey.mk.injEq])
      rw [if_neg hout, if_neg hbk]
      obtain ⟨n, hn⟩ := h2
      have hn' : mp.length = n + n := hn
      exact ⟨n + 1, by omega⟩

/-- The fold over all fills preserves the pairing and parity invariant. -/
theorem foldl_stepFill_invariant (market : String) (fills : List Fill)
    (st : List (EdgeKey × List String) × List String)
    (h1 : Paired st.1) (h2 : Even st.1.length) :
    Paired (fills.foldl (stepFill market) st).1 ∧
      Even (fills.foldl (stepFill market) st).1.length := by
  induction fills generalizing st with
  | nil => exact ⟨h1, h2⟩
  | cons f fs ih =>
    rw [List.foldl_cons]
    obtain ⟨p, e⟩ := stepFill_invariant market f st h1 h2
    exact ih _ p e

/-- An edge with given key fields exists in the sorted output exactly when
that key is present in the aggregation map. -/
theorem exists_edge_iff_mem_keysOf (mp : List (EdgeKey × List String))
    (m o : String) (d : Nat) (s : String) :
    (∃ e ∈ List.insertionSort edgeLe (mp.map fun p =>
        Hyperedge.mk p.1.market p.1.outcome p.1.day_start p.1.side p.2),
      e.market = m ∧ e.outcome = o ∧ e.day_start = d ∧ e.side = s) ↔
    (⟨m, o, d, s⟩ : EdgeKey) ∈ keysOf mp := by
  constructor
  · rintro ⟨e, he, h1, h2, h3, h4⟩
    rw [(List.perm_insertionSort edgeLe _).mem_iff, List.mem_map] at he
    obtain ⟨p, hp, hpe⟩ := he
    rw [keysOf, List.mem_map]
    refine ⟨p, hp, ?_⟩
    obtain ⟨⟨pm, po, pd, ps⟩, pts⟩ := p
    subst hpe
    simp only at h1 h2 h3 h4
    simp [h1, h2, h3, h4]
  · intro hk
    rw [keysOf, List.mem_map] at hk
    obtain ⟨p, hp, hpk⟩ := hk
    refine ⟨Hyperedge.mk p.1.market p.1.outcome p.1.day_start p.1.side p.2,
      ?_, ?_⟩
    · rw [(List.perm_insertionSort edgeLe _).mem_iff, List.mem_map]
      exact ⟨p, hp, rfl⟩
    · rw [hpk]
      exact ⟨rfl, rfl, rfl, rfl⟩

/-- C10: the undirected aggregator emits BUY and SELL hyperedges in matched
pairs — for every `(market, outcome, day)` a BUY edge is present exactly when
the SELL edge is — so the number of hyperedges is always even. -/
theorem C10_buy_sell_paired (fills : List Fill) (market_slug : Option String) :
    (∀ (m o : String) (d : Nat),
      (∃ e ∈ (build_hypergraph_from_fills fills market_slug).1,
        e.market = m ∧ e.outcome = o ∧ e.day_start = d ∧ e.side = "BUY") ↔
      (∃ e ∈ (build_hypergraph_from_fills fills market_slug).1,
        e.market = m ∧ e.outcome = o ∧ e.day_start = d ∧ e.side = "SELL")) ∧
    Even (build_hypergraph_from_fills fills market_slug).1.length := by
  have hinv := foldl_stepFill_invariant (market_slug.getD "market") fills
    ([], []) (by intro m o d; simp [keysOf]) (by simp)
  constructor
  · intro m o d
    show (∃ e ∈ List.insertionSort edgeLe _, _) ↔ ∃ e ∈ List.insertionSort edgeLe _, _
    rw [exists_edge_iff_mem_keysOf, exists_edge_iff_mem_keysOf]
    exact hinv.1 m o d
  · show Even (List.insertionSort edgeLe _).length
    rw [(List.perm_insertionSort edgeLe _).length_eq, List.length_map]
    exact hinv.2

end Polymarket
